import Mathlib

/-!
Verification development for the rule-matching core of the amo-validator
repository.

Embedded sources:
* `src/validator/testcases/regex.py` — the regex-based pattern rule engine
  (`run_regex_tests`, `RegexTestGenerator`, `CompatRegexTestHelper`, the
  concrete generator catalog entries needed by the claims).
* `src/tests/test_webapp.py` — behavioral tests of the webapp manifest
  validator (`validator/webapp.py` itself is not in `src/`, so the manifest
  validator and a few external collaborators are modelled from the spec,
  each marked `Modelled from the spec:` in its doc comment).

Documents, filenames and patterns are represented as `List Char`; the
mutable `ErrorBundle` ("the sink") becomes explicit state passed through
every action.
-/

/-- Shorthand: the character list underlying a string literal. -/
def lstr (s : String) : List Char := s.data

/-- The application-version definitions imported at the top of
`validator/testcases/regex.py` (`FX4_DEFINITION` … `TB12_DEFINITION`).
Their payloads live in `validator/compat.py` (not in `src/`); the claims
only need them as distinct opaque tokens, so they are embedded as an
enumeration. -/
inductive Version where
  | FX4 | FX5 | FX6 | FX7 | FX8 | FX9 | FX11 | FX12 | FX13
  | TB7 | TB10 | TB11 | TB12
deriving DecidableEq, Repr

/-- The three logging channels of the sink used by the regex tests:
`err.warning`, `err.notice`, `err.error`. -/
inductive Channel where
  | warning | notice | error
deriving DecidableEq, Repr

/-- One diagnostic as emitted by the wrapper in
`RegexTestGenerator.get_test` (regex.py lines 86-99): identifying code
triple, title, message lines, filename, resolved line, compatibility
type, compatibility app versions, and tier. -/
structure Diagnostic where
  code : String × String × String
  title : String
  message : List String
  filename : List Char
  line : Nat
  compat_type : Option String
  for_appversions : Option Version
  tier : Nat
deriving DecidableEq, Repr

/-- The diagnostic sink (the `err` obect, an `ErrorBundle`): the version
support predicate is embedded as the list of supported version
definitions, `err.tier` is the ambient tier, and the three diagnostic
channels are accumulated lists.  `requiresChrome` embeds the
`err.metadata["requires_chrome"]` flag set by `ChromePatternRegexTests`. -/
structure Sink where
  supportedVersions : List Version
  tier : Nat
  warnings : List Diagnostic
  notices : List Diagnostic
  errors : List Diagnostic
  requiresChrome : Bool
deriving DecidableEq, Repr

/-- Embeds `err.supports_version(VERSION)`. -/
def Sink.supports_version (s : Sink) (v : Version) : Bool :=
  s.supportedVersions.contains v

/-- All diagnostics currently held by the sink, over all channels. -/
def allDiags (s : Sink) : List Diagnostic :=
  s.warnings ++ s.notices ++ s.errors

/-- Append one diagnostic to the channel chosen by the rule's log
function (`err.warning` / `err.notice` / `err.error`). -/
def logTo (ch : Channel) (s : Sink) (d : Diagnostic) : Sink :=
  match ch with
  | Channel.warning => { s with warnings := s.warnings ++ [d] }
  | Channel.notice => { s with notices := s.notices ++ [d] }
  | Channel.error => { s with errors := s.errors ++ [d] }

/-- A compiled pattern, embedded as its prefix-matching semantics: given
the rest of the document, return the length of a match starting there
(Python regexes are embedded one by one; literal patterns via `litPat`). -/
def Pat : Type := List Char → Option Nat

/-- The pattern denoted by a regex that is a literal string (after
unescaping `\.` to `.`): it matches exactly its own text. -/
def litPat (lit : List Char) : Pat :=
  fun rest => if lit.isPrefixOf rest then some lit.length else none

/-- Embeds `re.finditer(pattern, document)`: scan left to right; at each
position try the pattern; on a match of length `n`, record the start
offset and resume after the matched text (non-overlapping matches).
The extra fuel argument only makes the recursion structural; every step
consumes at least one character, so fuel `l.length` (as supplied by
`findMatches`) never runs out. -/
def findMatchesAux (p : Pat) : Nat → List Char → Nat → List Nat
  | 0, _, _ => []
  | _ + 1, [], _ => []
  | fuel + 1, c :: rest, i =>
    match p (c :: rest) with
    | some n => i :: findMatchesAux p fuel (rest.drop (n - 1)) (i + 1 + (n - 1))
    | none => findMatchesAux p fuel rest (i + 1)

/-- Start offsets of all non-overlapping matches of `p` in `doc`. -/
def findMatches (p : Pat) (doc : List Char) : List Nat :=
  findMatchesAux p doc.length doc 0

/-- Modelled from the spec: the Context Resolver
(`validator/contextgenerator.py`, not in `src/`) "maps a text offset to a
line number"; embedded as one plus the number of newline characters
strictly before the offset.  This models `self.context.get_line(match.start())`. -/
def getLine (document : List Char) (offset : Nat) : Nat :=
  1 + (document.take offset).countP (fun c => c == '\n')

/-- The per-instance state of a `RegexTestGenerator` relevant to its
actions: `self.document`, `self.filename`, and
`self.app_versions_fallback` (regex.py lines 54-60; the default context
is `ContextGenerator(document)`, so the resolver is determined by
`document`). -/
structure TestCtx where
  document : List Char
  filename : List Char
  app_versions_fallback : Option Version
deriving Repr

/-- Embeds `app_versions = app_versions or self.app_versions_fallback`
(regex.py line 84; only `None` is falsy among the values that occur). -/
def effAppVersions (ctx : TestCtx) (app_versions : Option Version) : Option Version :=
  match app_versions with
  | some v => some v
  | none => ctx.app_versions_fallback

/-- The diagnostic logged for one match in the wrapper of `get_test`
(regex.py lines 89-98). -/
def mkGenDiag (ctx : TestCtx) (title : String) (message : List String)
    (compat_type : Option String) (appV : Option Version) (tier : Nat)
    (start : Nat) : Diagnostic :=
  { code := ("testcases_regex", "generic", "_generated")
    title := title
    message := message
    filename := ctx.filename
    line := getLine ctx.document start
    compat_type := compat_type
    for_appversions := appV
    tier := tier }

/-- The list of diagnostics the wrapper of `get_test` emits when invoked
on sink state `s`: one per match, in match order. -/
def getTestDiags (ctx : TestCtx) (pattern : Pat) (title : String)
    (message : List String) (compat_type : Option String)
    (app_versions : Option Version) (s : Sink) : List Diagnostic :=
  (findMatches pattern ctx.document).map
    (mkGenDiag ctx title message compat_type (effAppVersions ctx app_versions)
      (if (effAppVersions ctx app_versions).isNone then s.tier else 5))

/-- Embeds `RegexTestGenerator.get_test` (regex.py lines 78-102), as the state
transformer of the returned wrapper together with its `matched` result.
The tier is read from the evolving sink at each log call
(`self.err.tier`), exactly as in the source. -/
def getTestRun (ctx : TestCtx) (pattern : Pat) (title : String)
    (message : List String) (log_function : Option Channel)
    (compat_type : Option String) (app_versions : Option Version) :
    Sink → Sink × Bool :=
  fun s =>
    let appV := effAppVersions ctx app_versions
    let ch := log_function.getD Channel.warning
    let ms := findMatches pattern ctx.document
    (ms.foldl
      (fun s' start =>
        logTo ch s'
          (mkGenDiag ctx title message compat_type appV
            (if appV.isNone then s'.tier else 5) start))
      s,
     !ms.isEmpty)

/-- The wrapper returned by `get_test`, used as a test action (its
`matched` result is discarded by `run_regex_tests`). -/
def get_test (ctx : TestCtx) (pattern : Pat) (title : String)
    (message : List String) (log_function : Option Channel)
    (compat_type : Option String) (app_versions : Option Version) :
    Sink → Sink :=
  fun s => (getTestRun ctx pattern title message log_function compat_type app_versions s).1

/-- Modelled from the spec: `BUGZILLA_BUG` lives in
`validator/constants.py` (not in `src/`); the spec only requires the
message trailer to carry the bug reference, so it is embedded as a bug
URL carrying the bug number. -/
def BUGZILLA_BUG (bug : Nat) : String :=
  "https://bugzilla.mozilla.org/show_bug.cgi?id=" ++ toString bug

/-- The second message line mixed in by `get_test_bug`
(regex.py lines 106-107). -/
def bugLine (bug : Nat) : String :=
  "See bug " ++ BUGZILLA_BUG bug ++ " for more information."

/-- Embeds `RegexTestGenerator.get_test_bug` (regex.py lines 104-108). -/
def get_test_bug (ctx : TestCtx) (bug : Nat) (pattern : Pat) (title : String)
    (message : String) (log_function : Option Channel)
    (compat_type : Option String) (app_versions : Option Version) :
    Sink → Sink :=
  get_test ctx pattern title [message, bugLine bug] log_function compat_type app_versions

/-- A registered rule generator: its `applicable` classmethod over
`(err, filename, document)`, its `app_versions_fallback` (set in
`__init__`), and its `tests()` / `js_tests()` producers, which for a
given instance state yield a finite list of zero-argument actions. -/
structure Generator where
  applicable : Sink → List Char → List Char → Bool
  fallback : Option Version
  tests : TestCtx → List (Sink → Sink)
  js_tests : TestCtx → List (Sink → Sink)

/-- Invoke a list of test actions in order, threading the sink. -/
def runActions (acts : List (Sink → Sink)) (s : Sink) : Sink :=
  acts.foldl (fun s' a => a s') s

/-- Embeds `run_regex_tests(document, err, filename, context, is_js)`
(regex.py lines 22-39): iterate the registered generators in
registration order; for each applicable one construct the instance and
run all `tests()` actions, then all `js_tests()` actions when `is_js`. -/
def run_regex_tests : List Generator → List Char → Sink → List Char → Bool → Sink
  | [], _, err, _, _ => err
  | g :: rest, document, err, filename, is_js =>
    run_regex_tests rest document
      (if g.applicable err filename document then
        (if is_js then
          runActions (g.js_tests ⟨document, filename, g.fallback⟩)
            (runActions (g.tests ⟨document, filename, g.fallback⟩) err)
         else runActions (g.tests ⟨document, filename, g.fallback⟩) err)
       else err)
      filename is_js

/-- The actions that `run_regex_tests` invokes for one generator once it
is found applicable: all of `tests()`, then `js_tests()` when `is_js`. -/
def actionsFor (g : Generator) (document filename : List Char) (is_js : Bool) :
    List (Sink → Sink) :=
  let ctx : TestCtx := ⟨document, filename, g.fallback⟩
  g.tests ctx ++ (if is_js then g.js_tests ctx else [])

/-- The full schedule of actions a scan invokes: the concatenation, in
registration order, of the action lists of the applicable generators
(applicability judged against sink state `s`). -/
def schedule (regs : List Generator) (document filename : List Char)
    (is_js : Bool) (s : Sink) : List (Sink → Sink) :=
  match regs with
  | [] => []
  | g :: rest =>
    (if g.applicable s filename document then actionsFor g document filename is_js else [])
      ++ schedule rest document filename is_js s

/-- The filename pattern of `PasswordsInPrefsRegexTests.applicable`
(regex.py line 197): the literal part before `.+` in
`r"defaults/preferences/.+\.js"`. -/
def prefsDir : List Char := lstr "defaults/preferences/"

/-- The literal `\.js` tail of that pattern (escaped dot). -/
def dotJs : List Char := lstr ".js"

/-- The `.+\.js` part of `re.match(r"defaults/preferences/.+\.js", filename)`:
starting at the current position, one or more non-newline characters
(`.` does not match a newline), then the literal `.js`; `re.match` does
not require the match to reach the end of the string.  `k` counts the
characters already consumed by `.+`. -/
def scanJs : List Char → Nat → Bool
  | [], _ => false
  | c :: rest, k =>
    if dotJs.isPrefixOf (c :: rest) && decide (1 ≤ k) then true
    else if c = '\n' then false
    else scanJs rest (k + 1)

/-- Embeds `PasswordsInPrefsRegexTests.applicable(err, filename, document)`
(regex.py lines 195-197):
`bool(re.match(r"defaults/preferences/.+\.js", filename))`. -/
def passwordsInPrefsApplicable (_err : Sink) (filename _document : List Char) : Bool :=
  prefsDir.isPrefixOf filename && scanJs (filename.drop prefsDir.length) 0

/-- Embeds `BannedPrefRegexTests.applicable(err, filename, document)`
(regex.py lines 216-218):
`not filename.startswith("defaults/preferences/")`. -/
def bannedPrefApplicable (_err : Sink) (filename _document : List Char) : Bool :=
  !(prefsDir.isPrefixOf filename)

/-- Embeds `PasswordsInPrefsRegexTests` (regex.py lines 186-204).  Its single
js test scans for the literal `"password"`. -/
def passwordsInPrefsGen : Generator :=
  { applicable := passwordsInPrefsApplicable
    fallback := none
    tests := fun _ => []
    js_tests := fun ctx =>
      [get_test ctx (litPat (lstr "password"))
        "Passwords may be stored in `defaults/preferences/*.js`"
        ["Storing passwords in the preferences JavaScript files is insecure. The Login Manager should be used insted."]
        none none none] }

/-- Embeds `BannedPrefRegexTests` (regex.py lines 207-235).  Its `tests()`
patterns come from `javascript.predefinedentities` (not in `src/`); no
claim depends on them, so the producer is left empty — only the
`applicable` gate matters here. -/
def bannedPrefGen : Generator :=
  { applicable := bannedPrefApplicable
    fallback := none
    tests := fun _ => []
    js_tests := fun _ => [] }

/-- Embeds `CompatRegexTestHelper.applicable` (regex.py lines 296-298):
`err.supports_version(cls.VERSION)`. -/
def compatApplicable (version : Version) (err : Sink)
    (_filename _document : List Char) : Bool :=
  err.supports_version version

/-- Embeds `CompatRegexTestHelper` (regex.py lines 286-298): a generator whose
`applicable` is exactly version support and whose
`app_versions_fallback` is the bound `VERSION`. -/
def mkCompatGenerator (version : Version)
    (tests js_tests : TestCtx → List (Sink → Sink)) : Generator :=
  { applicable := compatApplicable version
    fallback := some version
    tests := tests
    js_tests := js_tests }

/-- Embeds `DEP_INTERFACE` (regex.py line 301). -/
def DEP_INTERFACE : String := "Deprecated interface in use"

/-- Embeds `DEP_INTERFACE_DESC % (interface, version)` (regex.py lines 302-303). -/
def depInterfaceDesc (interface : String) (gecko : Nat) : String :=
  "This add-on uses `" ++ interface ++ "`, which is deprecated in Gecko "
    ++ toString gecko ++ " and should not be used."

/-- Embeds `Gecko6RegexTests.tests` (regex.py lines 329-346): the three
deprecated-interface literals (in source listing order) and the
`app\.update\.timer` pattern, whose escaped dots make it the literal
`app.update.timer`. -/
def gecko6Tests (ctx : TestCtx) : List (Sink → Sink) :=
  [ get_test_bug ctx 655514 (litPat (lstr "nsIDOMDocumentTraversal"))
      DEP_INTERFACE (depInterfaceDesc "nsIDOMDocumentTraversal" 6)
      none (some "error") none,
    get_test_bug ctx 655513 (litPat (lstr "nsIDOMDocumentRange"))
      DEP_INTERFACE (depInterfaceDesc "nsIDOMDocumentRange" 6)
      none (some "error") none,
    get_test_bug ctx 651596 (litPat (lstr "IWeaveCrypto"))
      DEP_INTERFACE (depInterfaceDesc "IWeaveCrypto" 6)
      none (some "error") none,
    get_test_bug ctx 614181 (litPat (lstr "app.update.timer"))
      "`app.update.timer` is incompatible with Gecko 6"
      "The `app.update.timer` preference is being replaced by the `app.update.timerMinimumDelay` preference in Gecko 6."
      none (some "error") none ]

/-- The regex `['\"](javascript|data):` of `Gecko6RegexTests.js_tests`
(regex.py line 350): a quote character, then `javascript:` or `data:`. -/
def jsDataUriPat : Pat :=
  fun rest =>
    match rest with
    | [] => none
    | c :: tail =>
      if c = Char.ofNat 39 || c = Char.ofNat 34 then
        if (lstr "javascript:").isPrefixOf tail then some 12
        else if (lstr "data:").isPrefixOf tail then some 6
        else none
      else none

/-- Embeds `Gecko6RegexTests.js_tests` (regex.py lines 348-356). -/
def gecko6JsTests (ctx : TestCtx) : List (Sink → Sink) :=
  [ get_test_bug ctx 656433 jsDataUriPat
      "`javascript:`/`data:` URIs may be incompatible with Gecko 6"
      "Loading `javascript:` and `data:` URIs through the location bar may no longer work as expected in Gecko 6. If you load these types of URIs, please test your add-on using the latest builds of the applications that it targets."
      (some Channel.notice) (some "warning") none ]

/-- Embeds `Gecko6RegexTests` (regex.py lines 323-356), with
`VERSION = FX6_DEFINITION`. -/
def gecko6Gen : Generator :=
  mkCompatGenerator Version.FX6 gecko6Tests gecko6JsTests

namespace Webapp

/-- A parsed JSON value, the shape of a manifest document tree. -/
inductive JValue where
  | jstr : String → JValue
  | jnum : Int → JValue
  | jbool : Bool → JValue
  | jobj : List (String × JValue) → JValue
  | jarr : List JValue → JValue

/-- Modelled from the spec: the diagnostic sink as seen by the manifest
validator (`validator/errorbundler.py` is not in `src/`): failures block
acceptance, warnings do not; each carries a message id. -/
structure Bundle where
  errors : List String
  warnings : List String
deriving DecidableEq, Repr

/-- Embeds `err.failed()`: a failure-level diagnostic was recorded (warnings,
such as the deprecated `widget` key, do not fail validation). -/
def failed (e : Bundle) : Bool := !e.errors.isEmpty

/-- A bundle with nothing recorded, as `ErrorBundle(listed=False)`
starts out. -/
def emptyBundle : Bundle := ⟨[], []⟩

/-- First-match key lookup in a JSON object (Python dict keys are
unique, so first match is the only match). -/
def lookupKey : List (String × JValue) → String → Option JValue
  | [], _ => none
  | kv :: rest, key => if kv.1 = key then some kv.2 else lookupKey rest key

/-- Character-list membership test for a one-character prefix check. -/
def strHasPre (s p : String) : Bool := p.data.isPrefixOf s.data

/-- ASCII lower-casing of one character. -/
def lowerChar (c : Char) : Char :=
  if 'A' ≤ c && c ≤ 'Z' then Char.ofNat (c.toNat + 32) else c

/-- ASCII lower-casing of a string. -/
def lowerStr (s : String) : String := ⟨s.data.map lowerChar⟩

/-- Modelled from the spec: `validator.webapp.test_path(path, can_be_data)`
(`validator/webapp.py` is not in `src/`).  Per spec §4.4/§8: valid iff
the value begins with exactly one `/` (not `//`), or with `http://` or
`https://`; `data:`-prefixed values are valid only when `can_be_data`
is set; everything else (e.g. `ftp://`) is invalid. -/
def test_path (path : String) (can_be_data : Bool) : Bool :=
  if strHasPre path "data:" then can_be_data
  else if strHasPre path "//" then false
  else if strHasPre path "/" then true
  else strHasPre path "http://" || strHasPre path "https://"

/-- Modelled from the spec: the fixed allow-list of fields a locale
override may carry; `default_locale` is banned inside an override
(spec §4.4: "a fixed allow-list of overridable fields"). -/
def LOCALE_ALLOWED : List String :=
  ["name", "description", "developer", "icons", "launch_path"]

/-- Modelled from the spec: the recognized `orientation` literals
(spec §4.4: "a fixed literal enumeration"; `validator.webapp.ORIENTATION_KEYS`). -/
def ORIENTATION_KEYS : List String :=
  ["portrait", "landscape", "portrait-secondary", "landscape-secondary"]

/-- Modelled from the spec: the canonical marketplace URL
(`validator.constants.DEFAULT_WEBAPP_AMO_URL`, not in `src/`). -/
def DEFAULT_WEBAPP_AMO_URL : String := "https://marketplace.mozilla.org"

/-- Modelled from the spec: the known top-level manifest keys; unknown
keys fail (spec §4.4). -/
def KNOWN_KEYS : List String :=
  ["version", "name", "description", "icons", "developer",
   "installs_allowed_from", "launch_path", "locales", "default_locale",
   "screen_size", "required_features", "orientation", "fullscreen",
   "widget"]

/-- A string made of one or more digits (a numeric string without unit
suffixes, so `"500px"` is rejected). -/
def isNumericStr (s : String) : Bool :=
  !s.data.isEmpty && s.data.all (fun c => '0' ≤ c && c ≤ '9')

/-- Unknown-top-level-key failures. -/
def unknownKeyErrors (fields : List (String × JValue)) : List String :=
  fields.filterMap
    (fun kv => if KNOWN_KEYS.contains kv.1 then none
               else some ("webapp_unknown_key " ++ kv.1))

/-- Field `name` is required, must be a string, max length 128. -/
def nameErrors (fields : List (String × JValue)) : List String :=
  match lookupKey fields "name" with
  | none => ["webapp_missing_name"]
  | some (JValue.jstr s) =>
    if s.data.length ≤ 128 then [] else ["webapp_name_too_long"]
  | some _ => ["webapp_name_not_string"]

/-- An optional field that, when present, must be a string. -/
def optStrErrors (fields : List (String × JValue)) (key : String) : List String :=
  match lookupKey fields key with
  | none => []
  | some (JValue.jstr _) => []
  | some _ => ["webapp_not_string " ++ key]

/-- Field `icons`: a mapping from size label to URL; each URL must classify
with data URIs allowed. -/
def iconsErrors (fields : List (String × JValue)) : List String :=
  match lookupKey fields "icons" with
  | none => []
  | some (JValue.jobj icons) =>
    icons.flatMap
      (fun kv =>
        match kv.2 with
        | JValue.jstr u => if test_path u true then [] else ["webapp_bad_icon " ++ kv.1]
        | _ => ["webapp_icon_not_string " ++ kv.1])
  | some _ => ["webapp_icons_not_dict"]

/-- Field `developer`: optional; if present a mapping with required `name`
and optional `url` passing the classifier without data URIs. -/
def developerErrors (fields : List (String × JValue)) : List String :=
  match lookupKey fields "developer" with
  | none => []
  | some (JValue.jobj dev) =>
    (match lookupKey dev "name" with
     | none => ["webapp_dev_missing_name"]
     | some (JValue.jstr _) => []
     | some _ => ["webapp_dev_name_not_string"]) ++
    (match lookupKey dev "url" with
     | none => []
     | some (JValue.jstr u) => if test_path u false then [] else ["webapp_dev_bad_url"]
     | some _ => ["webapp_dev_url_not_string"]) ++
    dev.filterMap
      (fun kv => if kv.1 = "name" || kv.1 = "url" then none
                 else some ("webapp_dev_unknown_key " ++ kv.1))
  | some _ => ["webapp_dev_not_dict"]

/-- Field `installs_allowed_from`: optional list of absolute URLs or the
wildcard; listed manifests must include the marketplace URL or the
wildcard.  URL schemes are matched case-insensitively (the reference
manifest carries `HTTP://…` and passes). -/
def installsErrors (fields : List (String × JValue)) (listed : Bool) : List String :=
  match lookupKey fields "installs_allowed_from" with
  | none => []
  | some (JValue.jarr items) =>
    items.flatMap
      (fun it =>
        match it with
        | JValue.jstr u =>
          if u = "*" || test_path (lowerStr u) false then [] else ["webapp_bad_install_origin"]
        | _ => ["webapp_install_origin_not_string"]) ++
    (if listed &&
        !(items.any (fun it =>
            match it with
            | JValue.jstr u => u = DEFAULT_WEBAPP_AMO_URL || u = "*"
            | _ => false))
     then ["webapp_installs_no_amo"] else [])
  | some _ => ["webapp_installs_not_list"]

/-- Field `launch_path`: optional string classifying without data URIs. -/
def launchPathErrors (fields : List (String × JValue)) : List String :=
  match lookupKey fields "launch_path" with
  | none => []
  | some (JValue.jstr s) => if test_path s false then [] else ["webapp_bad_launch_path"]
  | some _ => ["webapp_launch_path_not_string"]

/-- Failures contributed by one locale override: any key outside the
fixed allow-list (in particular `default_locale`) fails. -/
def localeOverrideErrors (ov : List (String × JValue)) : List String :=
  ov.filterMap
    (fun kv => if LOCALE_ALLOWED.contains kv.1 then none
               else some ("webapp_locales_invalid_key " ++ kv.1))

/-- Field `locales`: optional mapping from locale code to override object;
when present, top-level `default_locale` is required; overrides may
omit any field but may not add keys outside the allow-list. -/
def localesErrors (fields : List (String × JValue)) : List String :=
  match lookupKey fields "locales" with
  | none => []
  | some (JValue.jobj locs) =>
    (if (lookupKey fields "default_locale").isNone
     then ["webapp_missing_default_locale"] else []) ++
    locs.flatMap
      (fun lv =>
        match lv.2 with
        | JValue.jobj ov => localeOverrideErrors ov
        | _ => ["webapp_locale_not_object " ++ lv.1])
  | some _ => ["webapp_locales_not_object"]

/-- Field `screen_size`: optional mapping with at least one of the two
recognized keys; values must be numeric strings. -/
def screenSizeErrors (fields : List (String × JValue)) : List String :=
  match lookupKey fields "screen_size" with
  | none => []
  | some (JValue.jobj ss) =>
    (if ss.isEmpty then ["webapp_screen_size_empty"] else []) ++
    ss.flatMap
      (fun kv =>
        (if kv.1 = "min_width" || kv.1 = "min_height" then []
         else ["webapp_screen_size_bad_key " ++ kv.1]) ++
        (match kv.2 with
         | JValue.jstr v => if isNumericStr v then [] else ["webapp_screen_size_bad_value " ++ kv.1]
         | _ => ["webapp_screen_size_not_string " ++ kv.1]))
  | some _ => ["webapp_screen_size_not_dict"]

/-- Field `required_features`: optional list (may be empty). -/
def requiredFeaturesErrors (fields : List (String × JValue)) : List String :=
  match lookupKey fields "required_features" with
  | none => []
  | some (JValue.jarr _) => []
  | some _ => ["webapp_required_features_not_list"]

/-- An optional enumerated string field (`orientation`, `fullscreen`). -/
def enumErrors (fields : List (String × JValue)) (key : String)
    (allowed : List String) : List String :=
  match lookupKey fields key with
  | none => []
  | some (JValue.jstr s) =>
    if allowed.contains s then [] else ["webapp_bad_enum_value " ++ key]
  | some _ => ["webapp_enum_not_string " ++ key]

/-- The deprecated `widget` key produces a warning, never a failure. -/
def widgetWarnings (fields : List (String × JValue)) : List String :=
  match lookupKey fields "widget" with
  | none => []
  | some _ => ["webapp_widget_deprecated"]

/-- All failure-level findings of the field-validation pass; each field
check accumulates independently (spec §4.4: one pass enumerates every
violation rather than stopping at the first). -/
def webappErrors (fields : List (String × JValue)) (listed : Bool) : List String :=
  unknownKeyErrors fields ++
  nameErrors fields ++
  optStrErrors fields "version" ++
  optStrErrors fields "description" ++
  optStrErrors fields "default_locale" ++
  iconsErrors fields ++
  developerErrors fields ++
  installsErrors fields listed ++
  launchPathErrors fields ++
  localesErrors fields ++
  screenSizeErrors fields ++
  requiredFeaturesErrors fields ++
  enumErrors fields "orientation" ORIENTATION_KEYS ++
  enumErrors fields "fullscreen" ["true", "false"] ++
  []

/-- Modelled from the spec: `validator.webapp.detect_webapp`
(`validator/webapp.py` is not in `src/`).  The raw bytes have already
been read and BOM-stripped; `none` is an input whose bytes do not parse
as JSON.  Parse failure transitions straight to done with exactly one
failure diagnostic and no field checks (spec §4.4, §6, §7); a parsed
object is validated field by field, all violations accumulating. -/
def detect_webapp (parsed : Option JValue) (listed : Bool) (e : Bundle) : Bundle :=
  match parsed with
  | none => { e with errors := e.errors ++ ["webapp_parse_fail"] }
  | some (JValue.jobj fields) =>
    { e with errors := e.errors ++ webappErrors fields listed,
             warnings := e.warnings ++ widgetWarnings fields }
  | some _ => { e with errors := e.errors ++ ["webapp_not_object"] }

end Webapp

/-- A sink with no diagnostics, ambient tier 1, supporting no version. -/
def emptySink : Sink := ⟨[], 1, [], [], [], false⟩

/-- A sink supporting exactly the Gecko 6 version family. -/
def s6 : Sink := ⟨[Version.FX6], 1, [], [], [], false⟩

/-- A document consisting of exactly one occurrence of the literal
`nsIDOMDocumentTraversal`. -/
def docTrav : List Char := lstr "nsIDOMDocumentTraversal"

/-- A generic script filename used by concrete scans. -/
def fnJs : List Char := lstr "foo.js"

/-- A generator context whose document holds two occurrences of `ab` on
one line. -/
def c4ctx : TestCtx := ⟨lstr "ab ab", lstr "f.js", none⟩

/-- A small version-gated generator used to instantiate scan-schedule
statements: applicability is Gecko 6 support, one identity test action. -/
def wGen1 : Generator :=
  { applicable := fun e _ _ => e.supports_version Version.FX6
    fallback := some Version.FX6
    tests := fun _ => [fun s => s]
    js_tests := fun _ => [] }

/-- A small always-applicable generator with one test action and one
js-only action, both identities. -/
def wGen2 : Generator :=
  { applicable := fun _ _ _ => true
    fallback := none
    tests := fun _ => [fun s => s]
    js_tests := fun _ => [fun s => s] }

/-- The diagnostic produced by a version-gated test on the one-match
document `"x"` (used to instantiate the version-stamping statement). -/
def c2dg : Diagnostic :=
  mkGenDiag ⟨lstr "x", lstr "f.js", some Version.FX6⟩ "t" ["m"] none
    (some Version.FX6) 5 0

/-- The filename shape claimed for `PasswordsInPrefsRegexTests.applicable`:
starts with `defaults/preferences/`, then at least one character, then
the substring `.js` anywhere afterwards. -/
def c10shape (f : List Char) : Bool :=
  prefsDir.isPrefixOf f &&
  (List.range (f.drop prefsDir.length).length).any
    (fun i => decide (1 ≤ i) && dotJs.isPrefixOf ((f.drop prefsDir.length).drop i))

namespace Webapp

/-- The `developer` object of the reference manifest (`_get_json`,
src/tests/test_webapp.py lines 52-55). -/
def devObj : JValue :=
  JValue.jobj [("name", JValue.jstr "Mozilla Labs"),
               ("url", JValue.jstr "http://mozillalabs.com")]

/-- The `es` locale developer object of the reference manifest. -/
def esDev : JValue := JValue.jobj [("url", JValue.jstr "http://es.mozillalabs.com/")]

/-- The `it` locale developer object of the reference manifest. -/
def itDev : JValue := JValue.jobj [("url", JValue.jstr "http://it.mozillalabs.com/")]

/-- The `it` locale override of the reference manifest. -/
def itOverride : List (String × JValue) :=
  [("description", JValue.jstr "Azione aperta emozionante di sviluppo di!"),
   ("developer", itDev)]

/-- The full `es` locale override of the reference manifest. -/
def esOverrideFull : List (String × JValue) :=
  [("name", JValue.jstr "Foo Bar"),
   ("description", JValue.jstr "¡Acción abierta emocionante del desarrollo"),
   ("developer", esDev)]

/-- The `es` override with its `name` key removed
(second half of `test_webapp_invalid_locale_keys`). -/
def esOverrideNoName : List (String × JValue) :=
  [("description", JValue.jstr "¡Acción abierta emocionante del desarrollo"),
   ("developer", esDev)]

/-- The `es` override with the banned `default_locale` key added
(first half of `test_webapp_invalid_locale_keys`). -/
def esOverrideBad : List (String × JValue) :=
  ("default_locale", JValue.jstr "foo") :: esOverrideFull

/-- The reference manifest of `_get_json` (src/tests/test_webapp.py
lines 42-86), parameterized by the `es` override contents and by whether
the top-level `default_locale` entry is present. -/
def baseFields (es : List (String × JValue)) (withDefault : Bool) :
    List (String × JValue) :=
  [("version", JValue.jstr "1.0"),
   ("name", JValue.jstr "MozillaBall"),
   ("description", JValue.jstr "Exciting Open Web development action!"),
   ("icons", JValue.jobj
     [("16", JValue.jstr "/img/icon-16.png"),
      ("48", JValue.jstr "/img/icon-48.png"),
      ("128", JValue.jstr "/img/icon-128.png")]),
   ("developer", devObj),
   ("installs_allowed_from", JValue.jarr
     [JValue.jstr "https://appstore.mozillalabs.com",
      JValue.jstr "HTTP://mozilla.com/AppStore"]),
   ("launch_path", JValue.jstr "/index.html"),
   ("locales", JValue.jobj [("es", JValue.jobj es), ("it", JValue.jobj itOverride)])] ++
  (if withDefault then [("default_locale", JValue.jstr "en")] else []) ++
  [("screen_size", JValue.jobj
     [("min_width", JValue.jstr "600"), ("min_height", JValue.jstr "300")]),
   ("required_features", JValue.jarr
     [JValue.jstr "touch", JValue.jstr "geolocation", JValue.jstr "webgl"]),
   ("orientation", JValue.jstr "landscape"),
   ("fullscreen", JValue.jstr "true")]

end Webapp


/-! ### Helper lemmas about the engine embedding -/

theorem logTo_tier (ch : Channel) (s : Sink) (d : Diagnostic) :
    (logTo ch s d).tier = s.tier := by
  cases ch <;> rfl

theorem logTo_supportedVersions (ch : Channel) (s : Sink) (d : Diagnostic) :
    (logTo ch s d).supportedVersions = s.supportedVersions := by
  cases ch <;> rfl

theorem fold_mkGenDiag_eq (ctx : TestCtx) (t : String) (m : List String)
    (cT : Option String) (appV : Option Version) (ch : Channel) :
    ∀ (ms : List Nat) (s : Sink),
      ms.foldl
        (fun s' start =>
          logTo ch s'
            (mkGenDiag ctx t m cT appV (if appV.isNone then s'.tier else 5) start))
        s
      = (ms.map (mkGenDiag ctx t m cT appV (if appV.isNone then s.tier else 5))).foldl
          (logTo ch) s := by
  intro ms
  induction ms with
  | nil => intro s; rfl
  | cons a l ih =>
    intro s
    simp only [List.foldl_cons, List.map_cons]
    rw [ih]
    rw [logTo_tier]

theorem getTestRun_fst (ctx : TestCtx) (pat : Pat) (t : String) (m : List String)
    (lf : Option Channel) (cT : Option String) (aV : Option Version) (s : Sink) :
    (getTestRun ctx pat t m lf cT aV s).1
      = (getTestDiags ctx pat t m cT aV s).foldl (logTo (lf.getD Channel.warning)) s := by
  unfold getTestRun getTestDiags
  exact fold_mkGenDiag_eq ctx t m cT (effAppVersions ctx aV) (lf.getD Channel.warning)
    (findMatches pat ctx.document) s

theorem foldl_logTo_warning (ds : List Diagnostic) :
    ∀ s : Sink, ds.foldl (logTo Channel.warning) s = { s with warnings := s.warnings ++ ds } := by
  induction ds with
  | nil => intro s; simp
  | cons d l ih =>
    intro s
    simp only [List.foldl_cons]
    rw [ih]
    simp [logTo]

theorem foldl_logTo_notice (ds : List Diagnostic) :
    ∀ s : Sink, ds.foldl (logTo Channel.notice) s = { s with notices := s.notices ++ ds } := by
  induction ds with
  | nil => intro s; simp
  | cons d l ih =>
    intro s
    simp only [List.foldl_cons]
    rw [ih]
    simp [logTo]

theorem foldl_logTo_error (ds : List Diagnostic) :
    ∀ s : Sink, ds.foldl (logTo Channel.error) s = { s with errors := s.errors ++ ds } := by
  induction ds with
  | nil => intro s; simp
  | cons d l ih =>
    intro s
    simp only [List.foldl_cons]
    rw [ih]
    simp [logTo]

theorem mem_allDiags_foldl_logTo (ch : Channel) (ds : List Diagnostic) (s : Sink)
    (d : Diagnostic) :
    d ∈ allDiags (ds.foldl (logTo ch) s) ↔ d ∈ allDiags s ∨ d ∈ ds := by
  cases ch <;>
    simp [foldl_logTo_warning, foldl_logTo_notice, foldl_logTo_error, allDiags,
      List.mem_append] <;> tauto

theorem length_allDiags_foldl_logTo (ch : Channel) (ds : List Diagnostic) (s : Sink) :
    (allDiags (ds.foldl (logTo ch) s)).length = (allDiags s).length + ds.length := by
  cases ch <;>
    simp [foldl_logTo_warning, foldl_logTo_notice, foldl_logTo_error, allDiags,
      List.length_append] <;> omega

theorem runActions_append (l1 l2 : List (Sink → Sink)) (s : Sink) :
    runActions (l1 ++ l2) s = runActions l2 (runActions l1 s) := by
  simp [runActions, List.foldl_append]

theorem runActions_supportedVersions (acts : List (Sink → Sink))
    (h : ∀ a ∈ acts, ∀ s : Sink, (a s).supportedVersions = s.supportedVersions) :
    ∀ s : Sink, (runActions acts s).supportedVersions = s.supportedVersions := by
  induction acts with
  | nil => intro s; rfl
  | cons a l ih =>
    intro s
    have ha := h a (List.Mem.head l)
    have hl : ∀ b ∈ l, ∀ s : Sink, (b s).supportedVersions = s.supportedVersions :=
      fun b hb => h b (List.Mem.tail a hb)
    show (runActions l (a s)).supportedVersions = s.supportedVersions
    rw [ih hl (a s), ha s]

theorem schedule_congr (regs : List Generator) (document filename : List Char)
    (is_js : Bool) (s1 s2 : Sink)
    (h : ∀ g ∈ regs, g.applicable s1 filename document = g.applicable s2 filename document) :
    schedule regs document filename is_js s1 = schedule regs document filename is_js s2 := by
  induction regs with
  | nil => rfl
  | cons g rest ih =>
    have hg := h g (List.Mem.head rest)
    have hrest : ∀ gg ∈ rest,
        gg.applicable s1 filename document = gg.applicable s2 filename document :=
      fun gg hgg => h gg (List.Mem.tail g hgg)
    show (if g.applicable s1 filename document then actionsFor g document filename is_js else [])
          ++ schedule rest document filename is_js s1
        = (if g.applicable s2 filename document then actionsFor g document filename is_js else [])
          ++ schedule rest document filename is_js s2
    rw [hg, ih hrest]

theorem findMatchesAux_occ (lit : List Char) (fuel : Nat) (l : List Char) (i : Nat) :
    ∀ st ∈ findMatchesAux (litPat lit) fuel l i,
      ∃ k, st = i + k ∧ lit.isPrefixOf (List.drop k l) = true := by
  induction fuel, l, i using findMatchesAux.induct (litPat lit) with
  | case1 l i =>
    intro st hst
    simp [findMatchesAux] at hst
  | case2 fuel i =>
    intro st hst
    simp [findMatchesAux] at hst
  | case3 fuel c rest i n hp ih =>
    intro st hst
    simp only [findMatchesAux, hp] at hst
    have hpre : lit.isPrefixOf (c :: rest) = true ∧ n = lit.length := by
      unfold litPat at hp
      split at hp
      · exact ⟨by assumption, (Option.some.inj hp).symm⟩
      · cases hp
    rcases List.mem_cons.mp hst with rfl | hst2
    · exact ⟨0, by omega, by simpa using hpre.1⟩
    · rcases ih st hst2 with ⟨k, hk, hpk⟩
      refine ⟨1 + (n - 1) + k, by omega, ?_⟩
      have h1 : List.drop (1 + (n - 1) + k) (c :: rest) = List.drop (n - 1 + k) rest := by
        have h2 : 1 + (n - 1) + k = (n - 1 + k) + 1 := by omega
        rw [h2, List.drop_succ_cons]
      rw [h1]
      rw [List.drop_drop] at hpk
      exact hpk
  | case4 fuel c rest i hp ih =>
    intro st hst
    simp only [findMatchesAux, hp] at hst
    rcases ih st hst with ⟨k, hk, hpk⟩
    refine ⟨k + 1, by omega, ?_⟩
    rw [List.drop_succ_cons]
    exact hpk

theorem findMatchesAux_ge (p : Pat) (fuel : Nat) (l : List Char) (i : Nat) :
    ∀ st ∈ findMatchesAux p fuel l i, i ≤ st := by
  induction fuel, l, i using findMatchesAux.induct p with
  | case1 l i =>
    intro st hst
    simp [findMatchesAux] at hst
  | case2 fuel i =>
    intro st hst
    simp [findMatchesAux] at hst
  | case3 fuel c rest i n hp ih =>
    intro st hst
    simp only [findMatchesAux, hp] at hst
    rcases List.mem_cons.mp hst with rfl | hst2
    · exact Nat.le_refl st
    · have := ih st hst2
      omega
  | case4 fuel c rest i hp ih =>
    intro st hst
    simp only [findMatchesAux, hp] at hst
    have := ih st hst
    omega

theorem findMatchesAux_chain (lit : List Char) (fuel : Nat) (l : List Char) (i : Nat) :
    List.Chain' (fun a b => a + lit.length ≤ b) (findMatchesAux (litPat lit) fuel l i) := by
  induction fuel, l, i using findMatchesAux.induct (litPat lit) with
  | case1 l i =>
    simp [findMatchesAux]
  | case2 fuel i =>
    simp [findMatchesAux]
  | case3 fuel c rest i n hp ih =>
    simp only [findMatchesAux, hp]
    rw [List.chain'_cons']
    constructor
    · intro y hy
      have hmem : y ∈ findMatchesAux (litPat lit) fuel (List.drop (n - 1) rest) (i + 1 + (n - 1)) :=
        List.mem_of_mem_head? hy
      have hge := findMatchesAux_ge (litPat lit) fuel (List.drop (n - 1) rest) (i + 1 + (n - 1)) y hmem
      have hn : n = lit.length := by
        unfold litPat at hp
        split at hp
        · exact (Option.some.inj hp).symm
        · cases hp
      omega
    · exact ih
  | case4 fuel c rest i hp ih =>
    simp only [findMatchesAux, hp]
    exact ih

theorem scanJs_iff (l : List Char) (k : Nat) :
    scanJs l k = true
      ↔ ∃ s₁ s₂, l = s₁ ++ (dotJs ++ s₂) ∧ 1 ≤ s₁.length + k ∧ ∀ c ∈ s₁, c ≠ '\n' := by
  induction l generalizing k with
  | nil =>
    simp only [scanJs]
    constructor
    · intro h
      exact (Bool.false_ne_true h).elim
    · rintro ⟨s₁, s₂, heq, hk, hnl⟩
      rw [show dotJs = ['.', 'j', 's'] from rfl] at heq
      cases s₁ with
      | nil => exact List.noConfusion heq
      | cons a t => exact List.noConfusion heq
  | cons c rest ih =>
    simp only [scanJs]
    by_cases h1 : (dotJs.isPrefixOf (c :: rest) && decide (1 ≤ k)) = true
    · rw [if_pos h1]
      constructor
      · intro _
        obtain ⟨hpre, hkd⟩ := (Bool.and_eq_true _ _) ▸ h1
        have hk := of_decide_eq_true hkd
        rw [ List.isPrefixOf_iff_prefix] at hpre
        rcases hpre with ⟨t, ht⟩
        refine ⟨[], t, ?_, by simpa using hk, fun x hx => absurd hx (List.not_mem_nil x)⟩
        rw [List.nil_append, ht]
      · intro _; rfl
    · rw [if_neg h1]
      by_cases h2 : c = '\n'
      · rw [if_pos h2]
        constructor
        · intro h
          exact (Bool.false_ne_true h).elim
        · rintro ⟨s₁, s₂, heq, hk, hnl⟩
          exfalso
          cases s₁ with
          | nil =>
            rw [List.nil_append, show dotJs = ['.', 'j', 's'] from rfl] at heq
            injection heq with h3 _
            rw [h2] at h3
            exact (by decide : ('\n' : Char) ≠ '.') h3
          | cons a t =>
            injection heq with h3 _
            exact (hnl a (List.Mem.head t)) (by rw [← h3, h2])
      · rw [if_neg h2]
        rw [ih (k + 1)]
        constructor
        · rintro ⟨s₁, s₂, heq, hk, hnl⟩
          refine ⟨c :: s₁, s₂, by rw [List.cons_append, heq], ?_, ?_⟩
          · simp only [List.length_cons]; omega
          · intro x hx
            rcases List.mem_cons.mp hx with rfl | hx2
            · exact h2
            · exact hnl x hx2
        · rintro ⟨s₁, s₂, heq, hk, hnl⟩
          cases s₁ with
          | nil =>
            exfalso
            rw [List.nil_append] at heq
            apply h1
            rw [Bool.and_eq_true]
            constructor
            · rw [ List.isPrefixOf_iff_prefix]
              exact ⟨s₂, heq.symm⟩
            · exact decide_eq_true (by simpa using hk)
          | cons a t =>
            injection heq with h3 h4
            refine ⟨t, s₂, h4, by omega, fun x hx => hnl x (List.Mem.tail a hx)⟩

theorem pre_exists (s p : String) (h : Webapp.strHasPre s p = true) :
    ∃ t, s.data = p.data ++ t := by
  unfold Webapp.strHasPre at h
  rw [ List.isPrefixOf_iff_prefix] at h
  rcases h with ⟨t, ht⟩
  exact ⟨t, ht.symm⟩

theorem pre_intro (s p : String) (t : List Char) (h : s.data = p.data ++ t) :
    Webapp.strHasPre s p = true := by
  unfold Webapp.strHasPre
  rw [ List.isPrefixOf_iff_prefix]
  exact ⟨t, h.symm⟩

theorem pre_head (s p : String) (a : Char) (pa : List Char) (hp : p.data = a :: pa)
    (h : Webapp.strHasPre s p = true) : ∃ t, s.data = a :: t := by
  rcases pre_exists s p h with ⟨t, ht⟩
  rw [hp] at ht
  exact ⟨pa ++ t, by rw [ht]; rfl⟩

theorem pre_false (s p q : String) (a b : Char) (pa qb : List Char)
    (hp : p.data = a :: pa) (hq : q.data = b :: qb) (hne : a ≠ b)
    (h : Webapp.strHasPre s p = true) : Webapp.strHasPre s q = false := by
  cases hqq : Webapp.strHasPre s q with
  | false => rfl
  | true =>
    exfalso
    rcases pre_head s p a pa hp h with ⟨t1, h1⟩
    rcases pre_head s q b qb hq hqq with ⟨t2, h2⟩
    rw [h1] at h2
    injection h2 with h3 _
    exact hne h3

theorem pre_slash_of_dslash (s : String) (h : Webapp.strHasPre s "//" = true) :
    Webapp.strHasPre s "/" = true := by
  rcases pre_exists s "//" h with ⟨t, ht⟩
  apply pre_intro s "/" ('/' :: t)
  rw [ht]; rfl

theorem webapp_failed_of_mem (e : Webapp.Bundle) (x : String) (h : x ∈ e.errors) :
    Webapp.failed e = true := by
  unfold Webapp.failed
  cases he : e.errors with
  | nil => rw [he] at h; exact absurd h (List.not_mem_nil x)
  | cons a l => rfl

/-! ### Claim theorems -/

/-- C3: for any filename (and any sink and document), at most one of
`PasswordsInPrefsRegexTests.applicable` and `BannedPrefRegexTests.applicable`
returns true: the former requires the `defaults/preferences/` path shape
that the latter explicitly excludes, so the two generators never both run
in the same scan. -/
theorem claim_C3 (e1 e2 : Sink) (f d1 d2 : List Char) :
    (passwordsInPrefsGen.applicable e1 f d1 && bannedPrefGen.applicable e2 f d2) = false := by
  show (passwordsInPrefsApplicable e1 f d1 && bannedPrefApplicable e2 f d2) = false
  unfold passwordsInPrefsApplicable bannedPrefApplicable
  cases h : prefsDir.isPrefixOf f <;> simp [h]

/-- C5: scanning the non-script document `nsIDOMDocumentTraversal` with the
Gecko 6 rule family applicable (the sink supports version FX6) emits exactly
one diagnostic: a warning-channel entry whose compatibility severity is
"error" and whose message carries the bug 655514 reference; with the family
unsupported the scan leaves the sink untouched. -/
theorem claim_C5 :
    ((run_regex_tests [gecko6Gen] docTrav s6 fnJs false).warnings.map
        (fun dg => (dg.title, dg.message, dg.compat_type, dg.for_appversions))
      = [(DEP_INTERFACE,
          [depInterfaceDesc "nsIDOMDocumentTraversal" 6, bugLine 655514],
          some "error", some Version.FX6)])
    ∧ (run_regex_tests [gecko6Gen] docTrav s6 fnJs false).notices = []
    ∧ (run_regex_tests [gecko6Gen] docTrav s6 fnJs false).errors = []
    ∧ run_regex_tests [gecko6Gen] docTrav emptySink fnJs false = emptySink := by
  refine ⟨by decide, by decide, by decide, by decide⟩

/-- C6: an action built by `get_test` with no `log_function` appends all its
diagnostics to the sink's warning channel, and each emitted diagnostic has
tier equal to the ambient `err.tier` when the effective app-versions value
(explicit argument or fallback) is absent, and the fixed tier 5 whenever it
is set. -/
theorem claim_C6 (ctx : TestCtx) (pat : Pat) (t : String) (m : List String)
    (cT : Option String) (aV : Option Version) (s : Sink) :
    ((getTestRun ctx pat t m none cT aV s).1
        = { s with warnings := s.warnings ++ getTestDiags ctx pat t m cT aV s })
    ∧ ((getTestDiags ctx pat t m cT aV s).all
        (fun dg => dg.tier == if (effAppVersions ctx aV).isNone then s.tier else 5) = true) := by
  constructor
  · rw [getTestRun_fst]
    exact foldl_logTo_warning _ s
  · simp only [getTestDiags, List.all_eq_true, List.mem_map]
    rintro dg ⟨st, hst, rfl⟩
    simp [mkGenDiag]

/-- C7: the path classifier is pure and returns true exactly on a single
leading slash (not two), `http://`, `https://`, or — only with data allowed —
`data:`; in particular the nine assertions of `test_test_path` hold. -/
theorem claim_C7 :
    (Webapp.test_path "/foo/bar" false = true)
    ∧ (Webapp.test_path "/foo/bar" true = true)
    ∧ (Webapp.test_path "//foo/bar" false = false)
    ∧ (Webapp.test_path "//foo/bar" true = false)
    ∧ (Webapp.test_path "http://asdf/" false = true)
    ∧ (Webapp.test_path "https://asdf/" false = true)
    ∧ (Webapp.test_path "ftp://asdf/" false = false)
    ∧ (Webapp.test_path "data:asdf" false = false)
    ∧ (Webapp.test_path "data:asdf" true = true)
    ∧ ∀ (s : String) (aD : Bool),
        Webapp.test_path s aD
          = ((Webapp.strHasPre s "/" && !Webapp.strHasPre s "//")
              || Webapp.strHasPre s "http://" || Webapp.strHasPre s "https://"
              || (aD && Webapp.strHasPre s "data:")) := by
  refine ⟨by decide, by decide, by decide, by decide, by decide, by decide, by decide,
    by decide, by decide, ?_⟩
  intro s aD
  unfold Webapp.test_path
  cases hd : Webapp.strHasPre s "data:" with
  | true =>
    have h1 : Webapp.strHasPre s "/" = false :=
      pre_false s "data:" "/" 'd' '/' (lstr "ata:") [] rfl rfl (by decide) hd
    have h3 : Webapp.strHasPre s "http://" = false :=
      pre_false s "data:" "http://" 'd' 'h' (lstr "ata:") (lstr "ttp://") rfl rfl (by decide) hd
    have h4 : Webapp.strHasPre s "https://" = false :=
      pre_false s "data:" "https://" 'd' 'h' (lstr "ata:") (lstr "ttps://") rfl rfl (by decide) hd
    simp [hd, h1, h3, h4]
  | false =>
    cases h2 : Webapp.strHasPre s "//" with
    | true =>
      have h1 : Webapp.strHasPre s "/" = true := pre_slash_of_dslash s h2
      have h3 : Webapp.strHasPre s "http://" = false :=
        pre_false s "/" "http://" '/' 'h' [] (lstr "ttp://") rfl rfl (by decide) h1
      have h4 : Webapp.strHasPre s "https://" = false :=
        pre_false s "/" "https://" '/' 'h' [] (lstr "ttps://") rfl rfl (by decide) h1
      simp [hd, h2, h1, h3, h4]
    | false =>
      cases h1 : Webapp.strHasPre s "/" with
      | true =>
        have h3 : Webapp.strHasPre s "http://" = false :=
          pre_false s "/" "http://" '/' 'h' [] (lstr "ttp://") rfl rfl (by decide) h1
        have h4 : Webapp.strHasPre s "https://" = false :=
          pre_false s "/" "https://" '/' 'h' [] (lstr "ttps://") rfl rfl (by decide) h1
        simp [hd, h2, h1, h3, h4]
      | false =>
        simp [hd, h2, h1]

/-- C8: an input whose bytes do not parse as JSON produces exactly one
failure-level diagnostic (the parse failure) and nothing else — no field
checks run and no warnings are recorded — and the resulting bundle has
failed. -/
theorem claim_C8 (listed : Bool) (e : Webapp.Bundle) :
    (Webapp.detect_webapp none listed e
      = { e with errors := e.errors ++ ["webapp_parse_fail"] })
    ∧ Webapp.failed (Webapp.detect_webapp none listed Webapp.emptyBundle) = true :=
  ⟨rfl, rfl⟩

/-- C2: a generator built on `CompatRegexTestHelper` is applicable exactly
when the sink supports its bound `VERSION`, and every diagnostic emitted by
a `get_test` action it created without an explicit `app_versions` argument
(so the `VERSION` fallback applies) carries `for_appversions = VERSION`. -/
theorem claim_C2 (v : Version) (tests js_tests : TestCtx → List (Sink → Sink))
    (e : Sink) (f d : List Char) :
    ((mkCompatGenerator v tests js_tests).applicable e f d = e.supports_version v)
    ∧ ∀ (doc fn : List Char) (pat : Pat) (t : String) (m : List String)
        (lf : Option Channel) (cT : Option String) (s : Sink) (dg : Diagnostic),
        dg ∈ allDiags
          (getTestRun ⟨doc, fn, (mkCompatGenerator v tests js_tests).fallback⟩
            pat t m lf cT none s).1 →
        dg ∈ allDiags s ∨ dg.for_appversions = some v := by
  constructor
  · rfl
  · intro doc fn pat t m lf cT s dg hmem
    rw [getTestRun_fst, mem_allDiags_foldl_logTo] at hmem
    rcases hmem with h | h
    · exact Or.inl h
    · right
      simp only [getTestDiags, List.mem_map] at h
      rcases h with ⟨st, hst, rfl⟩
      rfl

/-- Witness for C2 at `VERSION = FX6`, on the one-match document `x`: the
applicability equation holds on a concrete sink, and the single diagnostic
the action emits is stamped with FX6. -/
theorem claim_C2_witness :
    ((mkCompatGenerator Version.FX6 (fun _ => []) (fun _ => [])).applicable s6 fnJs docTrav
        = s6.supports_version Version.FX6)
    ∧ c2dg.for_appversions = some Version.FX6 := by
  refine ⟨(claim_C2 Version.FX6 (fun _ => []) (fun _ => []) s6 fnJs docTrav).1, ?_⟩
  have h := (claim_C2 Version.FX6 (fun _ => []) (fun _ => []) s6 fnJs docTrav).2
    (lstr "x") (lstr "f.js") (litPat (lstr "x")) "t" ["m"] none none s6 c2dg (by decide)
  exact h.resolve_left (by decide)

/-- C4 (amended): for an action bound to a literal pattern, the scan finds
genuine occurrences (the pattern is present at every reported offset), the
reported offsets are non-overlapping and in increasing order, and invoking
the action emits exactly one diagnostic per occurrence, in order, each
carrying the resolved line of its match's start offset.  The resolved lines
are NOT necessarily pairwise distinct: matches that start on the same line
share the line number (see the counterexample). -/
theorem claim_C4 (ctx : TestCtx) (lit : List Char) (t : String) (m : List String)
    (lf : Option Channel) (cT : Option String) (aV : Option Version) (s : Sink) :
    ((findMatches (litPat lit) ctx.document).all
        (fun st => lit.isPrefixOf (List.drop st ctx.document)) = true)
    ∧ List.Chain' (fun a b => a + lit.length ≤ b) (findMatches (litPat lit) ctx.document)
    ∧ ((getTestRun ctx (litPat lit) t m lf cT aV s).1
        = (getTestDiags ctx (litPat lit) t m cT aV s).foldl
            (logTo (lf.getD Channel.warning)) s)
    ∧ ((allDiags ((getTestRun ctx (litPat lit) t m lf cT aV s).1)).length
        = (allDiags s).length + (findMatches (litPat lit) ctx.document).length)
    ∧ ((getTestDiags ctx (litPat lit) t m cT aV s).map (fun dg => dg.line)
        = (findMatches (litPat lit) ctx.document).map (getLine ctx.document)) := by
  refine ⟨?_, findMatchesAux_chain lit ctx.document.length ctx.document 0,
    getTestRun_fst ctx (litPat lit) t m lf cT aV s, ?_, ?_⟩
  · rw [List.all_eq_true]
    intro st hst
    rcases findMatchesAux_occ lit ctx.document.length ctx.document 0 st hst with ⟨k, hk, hpk⟩
    have hk0 : st = k := by omega
    rw [hk0]
    exact hpk
  · rw [getTestRun_fst, length_allDiags_foldl_logTo]
    simp [getTestDiags]
  · simp only [getTestDiags, List.map_map]
    simp [Function.comp, mkGenDiag]

/-- Counterexample to C4 as stated: the document `ab ab` holds exactly two
non-overlapping occurrences of the literal `ab`; the action emits exactly
two diagnostics, but both resolved lines equal 1, so the resolved line
numbers are not pairwise distinct. -/
theorem claim_C4_counterexample :
    ((findMatches (litPat (lstr "ab")) c4ctx.document).length = 2)
    ∧ ((getTestRun c4ctx (litPat (lstr "ab")) "t" ["m"] none none none emptySink).1.warnings.map
        (fun dg => dg.line) = [1, 1])
    ∧ ¬ List.Pairwise (fun a b : Nat => a ≠ b)
        ((getTestRun c4ctx (litPat (lstr "ab")) "t" ["m"] none none none emptySink).1.warnings.map
          (fun dg => dg.line)) := by
  refine ⟨by decide, by decide, ?_⟩
  have h2 : ((getTestRun c4ctx (litPat (lstr "ab")) "t" ["m"] none none none emptySink).1.warnings.map
      (fun dg => dg.line)) = [1, 1] := by decide
  rw [h2]
  intro h
  rcases List.pairwise_cons.mp h with ⟨h3, _⟩
  exact h3 1 (List.Mem.head []) rfl

/-- C10 (amended): `PasswordsInPrefsRegexTests.applicable` returns true
exactly on filenames of the shape `defaults/preferences/` ++ s₁ ++ `.js` ++ s₂
where s₁ is a nonempty run of non-newline characters (the `.` of the regex
does not cross a newline); the match is not anchored to the end of the
filename, so `defaults/preferences/foo.json` and
`defaults/preferences/a.js.bak` are both applicable. -/
theorem claim_C10 (e : Sink) (f d : List Char) :
    (passwordsInPrefsGen.applicable e f d = true
      ↔ ∃ s₁ s₂, f = prefsDir ++ (s₁ ++ (dotJs ++ s₂)) ∧ s₁ ≠ []
          ∧ ∀ c ∈ s₁, c ≠ '\n')
    ∧ passwordsInPrefsGen.applicable e (lstr "defaults/preferences/foo.json") d = true
    ∧ passwordsInPrefsGen.applicable e (lstr "defaults/preferences/a.js.bak") d = true := by
  refine ⟨?_, rfl, rfl⟩
  show passwordsInPrefsApplicable e f d = true ↔ _
  unfold passwordsInPrefsApplicable
  rw [Bool.and_eq_true]
  constructor
  · rintro ⟨hpre, hscan⟩
    rw [ List.isPrefixOf_iff_prefix] at hpre
    rcases hpre with ⟨rest, hrest⟩
    have hdrop : List.drop prefsDir.length f = rest := by
      rw [← hrest]
      exact List.drop_left prefsDir rest
    rcases (scanJs_iff _ 0).mp hscan with ⟨s₁, s₂, heq, hk, hnl⟩
    rw [hdrop] at heq
    refine ⟨s₁, s₂, ?_, ?_, hnl⟩
    · rw [heq] at hrest
      exact hrest.symm
    · intro hnil
      rw [hnil] at hk
      simp at hk
  · rintro ⟨s₁, s₂, heq, hne, hnl⟩
    constructor
    · rw [ List.isPrefixOf_iff_prefix]
      exact ⟨s₁ ++ (dotJs ++ s₂), heq.symm⟩
    · have hdrop : List.drop prefsDir.length f = s₁ ++ (dotJs ++ s₂) := by
        rw [heq]
        exact List.drop_left prefsDir _
      rw [hdrop]
      apply (scanJs_iff _ 0).mpr
      refine ⟨s₁, s₂, rfl, ?_, hnl⟩
      have := List.length_pos.mpr hne
      omega

/-- Counterexample to C10 as stated: `defaults/preferences/a\n.js` starts
with the prefix, is followed by at least one character, and contains `.js`
afterwards — the claimed shape — yet `applicable` returns false, because the
`.` of the pattern does not match the newline character. -/
theorem claim_C10_counterexample :
    c10shape (lstr "defaults/preferences/a\n.js") = true
    ∧ passwordsInPrefsApplicable emptySink (lstr "defaults/preferences/a\n.js") [] = false :=
  ⟨by decide, by decide⟩

/-- C9: for any manifest whose `locales` mapping has an override carrying
`default_locale`, validation fails; for any manifest with `locales` present
but no top-level `default_locale`, validation fails; and the reference
manifest whose `es` override merely omits `name` validates without failure
(partial overrides are valid). -/
theorem claim_C9 :
    (∀ (fields : List (String × Webapp.JValue)) (listed : Bool) (e : Webapp.Bundle)
        (locs : List (String × Webapp.JValue)) (l : String)
        (ov : List (String × Webapp.JValue)) (v : Webapp.JValue),
        Webapp.lookupKey fields "locales" = some (Webapp.JValue.jobj locs) →
        (l, Webapp.JValue.jobj ov) ∈ locs →
        ("default_locale", v) ∈ ov →
        Webapp.failed (Webapp.detect_webapp (some (Webapp.JValue.jobj fields)) listed e) = true)
    ∧ (∀ (fields : List (String × Webapp.JValue)) (listed : Bool) (e : Webapp.Bundle)
        (x : Webapp.JValue),
        Webapp.lookupKey fields "locales" = some x →
        Webapp.lookupKey fields "default_locale" = none →
        Webapp.failed (Webapp.detect_webapp (some (Webapp.JValue.jobj fields)) listed e) = true)
    ∧ Webapp.failed
        (Webapp.detect_webapp
          (some (Webapp.JValue.jobj (Webapp.baseFields Webapp.esOverrideNoName true)))
          false Webapp.emptyBundle) = false := by
  refine ⟨?_, ?_, by decide⟩
  · intro fields listed e locs l ov v hlook hmem hov
    apply webapp_failed_of_mem _ ("webapp_locales_invalid_key " ++ "default_locale")
    show _ ∈ e.errors ++ Webapp.webappErrors fields listed
    apply List.mem_append_right
    have hx : ("webapp_locales_invalid_key " ++ "default_locale")
        ∈ Webapp.localesErrors fields := by
      unfold Webapp.localesErrors
      rw [hlook]
      apply List.mem_append_right
      rw [List.mem_flatMap]
      refine ⟨(l, Webapp.JValue.jobj ov), hmem, ?_⟩
      show _ ∈ Webapp.localeOverrideErrors ov
      unfold Webapp.localeOverrideErrors
      rw [List.mem_filterMap]
      exact ⟨("default_locale", v), hov, rfl⟩
    unfold Webapp.webappErrors
    simp only [List.mem_append]
    tauto
  · intro fields listed e x hlook hdl
    cases x with
    | jobj locs =>
      apply webapp_failed_of_mem _ "webapp_missing_default_locale"
      show _ ∈ e.errors ++ Webapp.webappErrors fields listed
      apply List.mem_append_right
      have hx : ("webapp_missing_default_locale" : String) ∈ Webapp.localesErrors fields := by
        unfold Webapp.localesErrors
        rw [hlook, hdl]
        apply List.mem_append_left
        exact List.Mem.head []
      unfold Webapp.webappErrors
      simp only [List.mem_append]
      tauto
    | jstr a =>
      apply webapp_failed_of_mem _ "webapp_locales_not_object"
      show _ ∈ e.errors ++ Webapp.webappErrors fields listed
      apply List.mem_append_right
      have hx : ("webapp_locales_not_object" : String) ∈ Webapp.localesErrors fields := by
        unfold Webapp.localesErrors
        rw [hlook]
        exact List.Mem.head []
      unfold Webapp.webappErrors
      simp only [List.mem_append]
      tauto
    | jnum a =>
      apply webapp_failed_of_mem _ "webapp_locales_not_object"
      show _ ∈ e.errors ++ Webapp.webappErrors fields listed
      apply List.mem_append_right
      have hx : ("webapp_locales_not_object" : String) ∈ Webapp.localesErrors fields := by
        unfold Webapp.localesErrors
        rw [hlook]
        exact List.Mem.head []
      unfold Webapp.webappErrors
      simp only [List.mem_append]
      tauto
    | jbool a =>
      apply webapp_failed_of_mem _ "webapp_locales_not_object"
      show _ ∈ e.errors ++ Webapp.webappErrors fields listed
      apply List.mem_append_right
      have hx : ("webapp_locales_not_object" : String) ∈ Webapp.localesErrors fields := by
        unfold Webapp.localesErrors
        rw [hlook]
        exact List.Mem.head []
      unfold Webapp.webappErrors
      simp only [List.mem_append]
      tauto
    | jarr a =>
      apply webapp_failed_of_mem _ "webapp_locales_not_object"
      show _ ∈ e.errors ++ Webapp.webappErrors fields listed
      apply List.mem_append_right
      have hx : ("webapp_locales_not_object" : String) ∈ Webapp.localesErrors fields := by
        unfold Webapp.localesErrors
        rw [hlook]
        exact List.Mem.head []
      unfold Webapp.webappErrors
      simp only [List.mem_append]
      tauto

/-- Witness for C9: the reference manifest with `default_locale` injected
into its `es` override fails, and the reference manifest with its top-level
`default_locale` removed fails. -/
theorem claim_C9_witness :
    Webapp.failed
      (Webapp.detect_webapp
        (some (Webapp.JValue.jobj (Webapp.baseFields Webapp.esOverrideBad true)))
        false Webapp.emptyBundle) = true
    ∧ Webapp.failed
        (Webapp.detect_webapp
          (some (Webapp.JValue.jobj (Webapp.baseFields Webapp.esOverrideFull false)))
          false Webapp.emptyBundle) = true := by
  constructor
  · exact claim_C9.1 (Webapp.baseFields Webapp.esOverrideBad true) false Webapp.emptyBundle
      [("es", Webapp.JValue.jobj Webapp.esOverrideBad),
       ("it", Webapp.JValue.jobj Webapp.itOverride)]
      "es" Webapp.esOverrideBad (Webapp.JValue.jstr "foo")
      rfl (List.Mem.head _) (List.Mem.head _)
  · exact claim_C9.2.1 (Webapp.baseFields Webapp.esOverrideFull false) false Webapp.emptyBundle
      (Webapp.JValue.jobj
        [("es", Webapp.JValue.jobj Webapp.esOverrideFull),
         ("it", Webapp.JValue.jobj Webapp.itOverride)])
      rfl rfl

theorem step_eq (g : Generator) (document filename : List Char) (is_js : Bool) (s : Sink) :
    (if g.applicable s filename document then
      (if is_js then
        runActions (g.js_tests ⟨document, filename, g.fallback⟩)
          (runActions (g.tests ⟨document, filename, g.fallback⟩) s)
       else runActions (g.tests ⟨document, filename, g.fallback⟩) s)
     else s)
    = runActions (if g.applicable s filename document
        then actionsFor g document filename is_js else []) s := by
  by_cases happ : g.applicable s filename document = true
  · rw [if_pos happ, if_pos happ]
    unfold actionsFor
    cases is_js <;> simp [runActions_append]
  · rw [if_neg happ, if_neg happ]
    rfl

/-- C1: `run_regex_tests` invokes exactly the schedule of actions: for every
registered generator found applicable, all of its `tests()` actions and —
exactly when `is_js` — all of its `js_tests()` actions, processed in
registration order, with no later generator or action skipped because of
earlier matches or diagnostics.  (The hypotheses record that actions never
change the supported-version set and that applicability reads the sink only
through that set, which holds for every generator in the catalog.) -/
theorem claim_C1 (regs : List Generator) (document filename : List Char)
    (is_js : Bool) (s : Sink)
    (h1 : ∀ g ∈ regs, ∀ ctx : TestCtx, ∀ a ∈ g.tests ctx ++ g.js_tests ctx,
        ∀ s' : Sink, (a s').supportedVersions = s'.supportedVersions)
    (h2 : ∀ g ∈ regs, ∀ s1 s2 : Sink, s1.supportedVersions = s2.supportedVersions →
        g.applicable s1 filename document = g.applicable s2 filename document) :
    run_regex_tests regs document s filename is_js
      = runActions (schedule regs document filename is_js s) s := by
  revert h1 h2
  induction regs generalizing s with
  | nil => intro h1 h2; rfl
  | cons g rest ih =>
    intro h1 h2
    have hg1 := h1 g (List.Mem.head rest)
    have hr1 : ∀ gg ∈ rest, ∀ ctx : TestCtx, ∀ a ∈ gg.tests ctx ++ gg.js_tests ctx,
        ∀ s' : Sink, (a s').supportedVersions = s'.supportedVersions :=
      fun gg hgg => h1 gg (List.Mem.tail g hgg)
    have hr2 : ∀ gg ∈ rest, ∀ s1 s2 : Sink, s1.supportedVersions = s2.supportedVersions →
        gg.applicable s1 filename document = gg.applicable s2 filename document :=
      fun gg hgg => h2 gg (List.Mem.tail g hgg)
    have h0 : run_regex_tests (g :: rest) document s filename is_js
        = run_regex_tests rest document
            (if g.applicable s filename document then
              (if is_js then
                runActions (g.js_tests ⟨document, filename, g.fallback⟩)
                  (runActions (g.tests ⟨document, filename, g.fallback⟩) s)
               else runActions (g.tests ⟨document, filename, g.fallback⟩) s)
             else s)
            filename is_js := rfl
    rw [h0, step_eq g document filename is_js s]
    have hsub : ∀ a ∈ (if g.applicable s filename document
        then actionsFor g document filename is_js else []),
        ∀ s' : Sink, (a s').supportedVersions = s'.supportedVersions := by
      intro a ha s'
      by_cases happ : g.applicable s filename document = true
      · rw [if_pos happ] at ha
        apply hg1 ⟨document, filename, g.fallback⟩
        have ha2 : a ∈ g.tests ⟨document, filename, g.fallback⟩
            ++ (if is_js then g.js_tests ⟨document, filename, g.fallback⟩ else []) := by
          simpa [actionsFor] using ha
        rcases List.mem_append.mp ha2 with h | h
        · exact List.mem_append_left _ h
        · cases is_js with
          | false => simp at h
          | true => exact List.mem_append_right _ (by simpa using h)
      · rw [if_neg happ] at ha
        exact absurd ha (List.not_mem_nil a)
    have hsup : (runActions (if g.applicable s filename document
        then actionsFor g document filename is_js else []) s).supportedVersions
        = s.supportedVersions :=
      runActions_supportedVersions _ hsub s
    rw [ih _ hr1 hr2]
    have hcong := schedule_congr rest document filename is_js
      (runActions (if g.applicable s filename document
        then actionsFor g document filename is_js else []) s) s
      (fun gg hgg => hr2 gg hgg _ _ hsup)
    rw [hcong]
    show runActions (schedule rest document filename is_js s)
        (runActions (if g.applicable s filename document
          then actionsFor g document filename is_js else []) s)
      = runActions (schedule (g :: rest) document filename is_js s) s
    rw [show schedule (g :: rest) document filename is_js s
        = (if g.applicable s filename document
            then actionsFor g document filename is_js else [])
          ++ schedule rest document filename is_js s from rfl]
    rw [runActions_append]

/-- Witness for C1: a concrete two-generator catalog — one version-gated on
FX6 with a single test action, one always applicable with a test action and
a js action — scanned as script content against a concrete sink, satisfies
the schedule equation. -/
theorem claim_C1_witness :
    run_regex_tests [wGen1, wGen2] docTrav s6 fnJs true
      = runActions (schedule [wGen1, wGen2] docTrav fnJs true s6) s6 := by
  apply claim_C1
  · intro g hg ctx a ha s'
    rcases List.mem_cons.mp hg with rfl | hg2
    · have he : a = fun s => s := by simpa [wGen1] using ha
      rw [he]
    · rcases List.mem_cons.mp hg2 with rfl | hg3
      · have he : a = fun s => s := by
          rcases List.mem_append.mp ha with h | h
          · simpa [wGen2] using h
          · simpa [wGen2] using h
        rw [he]
      · exact absurd hg3 (List.not_mem_nil g)
  · intro g hg s1 s2 hsup
    rcases List.mem_cons.mp hg with rfl | hg2
    · show s1.supports_version Version.FX6 = s2.supports_version Version.FX6
      unfold Sink.supports_version
      rw [hsup]
    · rcases List.mem_cons.mp hg2 with rfl | hg3
      · rfl
      · exact absurd hg3 (List.not_mem_nil g)

/-- Witness for C10 at a concrete filename: `defaults/preferences/foo.json`
is applicable even though it does not end in `.js`. -/
theorem claim_C10_witness :
    passwordsInPrefsGen.applicable emptySink (lstr "defaults/preferences/foo.json") [] = true :=
  (claim_C10 emptySink [] []).2.1
